import Mathlib

/-!
Verification of the undo/redo engine of a raster sprite editor
(`UndoHistory`, its two `UndoStream`s of typed `UndoChunk`s, the budget
eviction, and the per-kind chunk codecs/inverters).

The definitions below are a shallow embedding of the C++ source.  Streams
are lists of chunks; the `do { ... } while (level)` loops of `runUndo`,
`discardTail`, `count_undo_groups` and `out_of_group` become structural
recursions; machine integers become `Nat`/`Int`.  `UndoStream` itself
(`undo_stream.h`) is not part of the sources at hand, so its operations are
modelled from the specification (see `pushChunk`).
-/

set_option maxHeartbeats 1000000

namespace Undo

/-- The `UNDO_TYPE_*` enumeration, in declaration order (values 0..25). -/
def UNDO_TYPE_OPEN : Nat := 0

/-- `UNDO_TYPE_CLOSE`. -/
def UNDO_TYPE_CLOSE : Nat := 1

/-- `UNDO_TYPE_DATA`. -/
def UNDO_TYPE_DATA : Nat := 2

/-- `UNDO_TYPE_IMAGE`. -/
def UNDO_TYPE_IMAGE : Nat := 3

/-- An `UndoChunk` header: `{int type; int size; const char* label;}`.
The variable-length payload that follows the header in the C allocation is
irrelevant to the stream-level bookkeeping verified here; only `type`,
`size` and `label` are read by `UndoHistory` itself. -/
structure UndoChunk where
  type : Nat
  size : Nat
  label : String
deriving DecidableEq, Repr

/-- Contribution of one chunk to the running OPEN/CLOSE nesting level:
`if (chunk->type == UNDO_TYPE_OPEN) level++; else if (chunk->type ==
UNDO_TYPE_CLOSE) level--;` as it appears in `runUndo`, `discardTail`,
`count_undo_groups` and `out_of_group`. -/
def typeDelta (t : Nat) : Int :=
  if t = UNDO_TYPE_OPEN then 1 else if t = UNDO_TYPE_CLOSE then -1 else 0

/-- Running OPEN/CLOSE depth accumulated over a whole list of chunks. -/
def depthSum (l : List UndoChunk) : Int :=
  (l.map (fun c => typeDelta c.type)).sum

/-- Number of chunks consumed by one execution of the shared inner loop
`do { chunk = *it; ++it; <level update> } while (level && it != end);`
starting from nesting level `level`: chunks are taken one at a time until
the level counter returns to zero or the stream is exhausted. -/
def consumeCount : List UndoChunk → Int → Nat
  | [], _ => 0
  | c :: rest, level =>
    let level' := level + typeDelta c.type
    if level' = 0 then 1 else 1 + consumeCount rest level'

/-- The outer loop of the source's `out_of_group`: repeatedly runs the inner
loop with the level counter reset to 0, and finally reports the level the
last inner run ended with (the level after the chunks it consumed). -/
def oogLoop : List UndoChunk → Int → Int
  | [], level => level
  | c :: rest, _ =>
    let k := consumeCount (c :: rest) 0
    oogLoop ((c :: rest).drop k) (depthSum ((c :: rest).take k))
termination_by l => l.length
decreasing_by
  have hk : 1 ≤ consumeCount (c :: rest) 0 := by
    show 1 ≤ if 0 + typeDelta c.type = 0 then 1
      else 1 + consumeCount rest (0 + typeDelta c.type)
    split <;> omega
  simp [List.length_drop]
  omega

/-- `out_of_group(stream)`: returns `level == 0` for the level left behind
by the last inner iteration (`level` starts at 0, so an empty stream
reports `true`). -/
def out_of_group (l : List UndoChunk) : Bool :=
  oogLoop l 0 == 0

/-- The outer loop of the source's `count_undo_groups`: each inner run that
ends with `level == 0` increments the group counter. -/
def cugLoop : List UndoChunk → Nat → Nat
  | [], groups => groups
  | c :: rest, groups =>
    let k := consumeCount (c :: rest) 0
    cugLoop ((c :: rest).drop k)
      (if depthSum ((c :: rest).take k) = 0 then groups + 1 else groups)
termination_by l => l.length
decreasing_by
  have hk : 1 ≤ consumeCount (c :: rest) 0 := by
    show 1 ≤ if 0 + typeDelta c.type = 0 then 1
      else 1 + consumeCount rest (0 + typeDelta c.type)
    split <;> omega
  simp [List.length_drop]
  omega

/-- `count_undo_groups(stream)` with its counter started at 0. -/
def count_undo_groups (l : List UndoChunk) : Nat :=
  cugLoop l 0

/-- Number of chunk positions (walking head to tail) at which the running
OPEN/CLOSE depth, started from `acc`, is zero right after the chunk: "the
number of times the running depth returns to 0". -/
def zerosFrom : List UndoChunk → Int → Nat
  | [], _ => 0
  | c :: rest, acc =>
    let acc' := acc + typeDelta c.type
    (if acc' = 0 then 1 else 0) + zerosFrom rest acc'

/-- Number of top-level entries of a stream: repeatedly strip the minimal
head run after which the running depth returns to zero (one top-level
single chunk, or one whole top-level group) and count the strips. -/
def topEntriesCount : List UndoChunk → Nat
  | [] => 0
  | c :: rest => 1 + topEntriesCount ((c :: rest).drop (consumeCount (c :: rest) 0))
termination_by l => l.length
decreasing_by
  have hk : 1 ≤ consumeCount (c :: rest) 0 := by
    show 1 ≤ if 0 + typeDelta c.type = 0 then 1
      else 1 + consumeCount rest (0 + typeDelta c.type)
    split <;> omega
  simp [List.length_drop]
  omega

/-- Modelled from the spec: `UndoStream` (its header `undo_stream.h` is not
among the sources at hand; only its callers are).  A stream is an ordered
list of chunks with head/tail removal and `memSize = Σ chunk.size`.
`pushChunk` inserts the new chunk at the head: the spec's budget eviction
discards the oldest recordings from the tail (`discardTail`, §4.3) and
`doUndo` must consume the most recent recording first, so new chunks go to
the head and the tail holds the oldest chunk. -/
def pushChunk (l : List UndoChunk) (c : UndoChunk) : List UndoChunk :=
  c :: l

/-- Modelled from the spec: `UndoStream::getMemSize()`, the running total
`Σ chunk.size` maintained by push/pop. -/
def memSize (l : List UndoChunk) : Nat :=
  (l.map (fun c => c.size)).sum

/-- The `DO_UNDO` direction tag. -/
def DO_UNDO : Nat := 0

/-- The `DO_REDO` direction tag. -/
def DO_REDO : Nat := 1

/-- `UndoHistory`'s scalar state: the two streams, the two difference
counters, the `enabled` flag and the current label (`NULL` ↦ `none`). -/
structure UndoHistory where
  undoStream : List UndoChunk
  redoStream : List UndoChunk
  diffCount : Int
  diffSaved : Int
  enabled : Bool
  label : Option String
deriving DecidableEq, Repr

/-- The state constructed by `UndoHistory::UndoHistory`. -/
def initialHistory : UndoHistory :=
  { undoStream := [], redoStream := [], diffCount := 0, diffSaved := 0,
    enabled := true, label := none }

/-- `UndoHistory::canUndo`. -/
def canUndo (h : UndoHistory) : Bool :=
  !h.undoStream.isEmpty

/-- `UndoHistory::canRedo`. -/
def canRedo (h : UndoHistory) : Bool :=
  !h.redoStream.isEmpty

/-- `UndoHistory::isSavedState`. -/
def isSavedState (h : UndoHistory) : Bool :=
  h.diffCount == h.diffSaved

/-- `UndoHistory::markSavedState`. -/
def markSavedState (h : UndoHistory) : UndoHistory :=
  { h with diffSaved := h.diffCount }

/-- `UndoHistory::clearRedo` (clearing an already empty stream is the
identity either way). -/
def clearRedo (h : UndoHistory) : UndoHistory :=
  { h with redoStream := [] }

/-- Result of the `runUndo` loop: the remaining source stream, the updated
destination stream, the live document state (abstract type `W`), and the
controller's `m_diffCount`/`m_label`. -/
structure RunResult (W : Type) where
  src : List UndoChunk
  dst : List UndoChunk
  world : W
  diffCount : Int
  label : Option String

/-- The `do { ... } while (level)` loop of `UndoHistory::runUndo`.  Each
iteration pops the head chunk, sets the controller label to the chunk's
label, dispatches `undo_actions[chunk->type].invert(redo_stream, chunk)` —
abstracted here as `invert`, a function from the chunk, the destination
stream and the live document state `W` to the new stream and state — then
updates the nesting level and `m_diffCount`, and repeats while the level is
non-zero and the source is not exhausted. -/
def runUndoLoop {W : Type} (invert : UndoChunk → List UndoChunk → W → List UndoChunk × W)
    (state : Nat) :
    List UndoChunk → List UndoChunk → W → Int → Option String → Int → RunResult W
  | [], dst, w, diff, lab, _ =>
    { src := [], dst := dst, world := w, diffCount := diff, label := lab }
  | c :: rest, dst, w, diff, _lab, level =>
    let lab' := some c.label
    let dw := invert c dst w
    let level' := level + typeDelta c.type
    let diff' := if state = DO_UNDO then diff - 1
      else if state = DO_REDO then diff + 1 else diff
    if level' = 0 then
      { src := rest, dst := dw.1, world := dw.2, diffCount := diff', label := lab' }
    else runUndoLoop invert state rest dw.1 dw.2 diff' lab' level'

/-- `UndoHistory::runUndo(state)`: selects source and destination stream by
direction, runs the loop from level 0, and stores the results back. -/
def runUndo {W : Type} (invert : UndoChunk → List UndoChunk → W → List UndoChunk × W)
    (state : Nat) (h : UndoHistory) (w : W) : UndoHistory × W :=
  if state = DO_UNDO then
    let r := runUndoLoop invert state h.undoStream h.redoStream w h.diffCount h.label 0
    ({ h with undoStream := r.src, redoStream := r.dst,
              diffCount := r.diffCount, label := r.label }, r.world)
  else
    let r := runUndoLoop invert state h.redoStream h.undoStream w h.diffCount h.label 0
    ({ h with redoStream := r.src, undoStream := r.dst,
              diffCount := r.diffCount, label := r.label }, r.world)

/-- `UndoHistory::doUndo`. -/
def doUndo {W : Type} (invert : UndoChunk → List UndoChunk → W → List UndoChunk × W)
    (h : UndoHistory) (w : W) : UndoHistory × W :=
  runUndo invert DO_UNDO h w

/-- `UndoHistory::doRedo`. -/
def doRedo {W : Type} (invert : UndoChunk → List UndoChunk → W → List UndoChunk × W)
    (h : UndoHistory) (w : W) : UndoHistory × W :=
  runUndo invert DO_REDO h w

/-- `n` successive `doUndo` calls. -/
def doUndoN {W : Type} (invert : UndoChunk → List UndoChunk → W → List UndoChunk × W) :
    Nat → UndoHistory → W → UndoHistory × W
  | 0, h, w => (h, w)
  | n + 1, h, w =>
    let r := doUndo invert h w
    doUndoN invert n r.1 r.2

/-- The `do { ... } while (level)` loop of `UndoHistory::discardTail`,
which pops with `popChunk(true)` (from the tail) and frees chunks until the
level counter returns to zero or the stream is exhausted; written here on
the reversed list, so that popping the tail of the stream is popping the
head of the argument. -/
def discardTailLoop : List UndoChunk → Int → List UndoChunk
  | [], _ => []
  | c :: rest, level =>
    let level' := level + typeDelta c.type
    if level' = 0 then rest else discardTailLoop rest level'

/-- `UndoHistory::discardTail` acting on the undo stream. -/
def discardTail (l : List UndoChunk) : List UndoChunk :=
  (discardTailLoop l.reverse 0).reverse

/-- The `while (groups > 1 && m_undoStream->getMemSize() > undo_size_limit)`
budget loop of `UndoHistory::updateUndo`: recursion on the local `groups`
counter, which the source decrements once per `discardTail` call. -/
def budgetLoop (limit : Nat) : Nat → List UndoChunk → List UndoChunk
  | 0, l => l
  | 1, l => l
  | groups + 2, l =>
    if memSize l > limit then budgetLoop limit (groups + 1) (discardTail l) else l

/-- `UndoHistory::updateUndo`, called after every encoded chunk: increment
`m_diffCount`, clear the redo stream, and, when the undo stream is out of
group, evict tail groups while more than one group is stored and the memory
total exceeds the byte limit (`limit` is the configured
`"Options/UndoSizeLimit"` already multiplied by 2^20). -/
def updateUndo (limit : Nat) (h : UndoHistory) : UndoHistory :=
  let h1 := clearRedo { h with diffCount := h.diffCount + 1 }
  if out_of_group h1.undoStream then
    { h1 with undoStream := budgetLoop limit (count_undo_groups h1.undoStream) h1.undoStream }
  else h1

/-- `undo_actions[type].name`: the canonical label used by `undo_chunk_new`
when no caller label is set. -/
def undoActionName (t : Nat) : String :=
  (["open", "close", "data", "image", "flip", "dirty", "add_image",
    "remove_image", "replace_image", "add_cel", "remove_cel",
    "set_layer_name", "add_layer", "remove_layer", "move_layer", "set_layer",
    "add_palette", "remove_palette", "set_palette_colors", "remap_palette",
    "set_mask", "set_imgtype", "set_size", "set_frame", "set_frames",
    "set_frlen"]).getD t ""

/-- The shared shape of every `UndoHistory::undo_<action>` entry point
(the source has 26 of them, `undo_open` .. `undo_set_frlen`): the matching
`chunk_<kind>_new` builds one chunk of the kind's type and size via
`undo_chunk_new` — which labels it with `getLabel()` or the kind's
canonical name and pushes it onto the undo stream — and then `updateUndo`
runs.  `ty` and `size` are the kind tag and the allocation size of the
concrete entry point. -/
def undo_record (limit : Nat) (ty size : Nat) (h : UndoHistory) : UndoHistory :=
  updateUndo limit
    { h with undoStream :=
        pushChunk h.undoStream { type := ty, size := size, label := h.label.getD (undoActionName ty) } }

/-- A whole sequence of recordings, one `(type, size)` pair per
`undo_<action>` call, oldest first. -/
def recordAll (limit : Nat) (cs : List (Nat × Nat)) (h : UndoHistory) : UndoHistory :=
  cs.foldl (fun h c => undo_record limit c.1 c.2 h) h

/-- Payload of an `UndoChunkRemapPalette`: sprite id, frame range and the
256-entry mapping table (each entry is a byte, hence `Fin 256`). -/
structure UndoChunkRemapPalette where
  sprite_id : Nat
  frame_from : Nat
  frame_to : Nat
  mapping : Fin 256 → Fin 256

/-- The inverse-mapping construction of `chunk_remap_palette_invert`:
`std::vector<int> inverse_mapping(256)` (zero-initialised) filled by
`for (c = 0; c < 256; ++c) inverse_mapping[chunk->mapping[c]] = c;`. -/
def chunk_remap_palette_inverse (m : Fin 256 → Fin 256) : Fin 256 → Fin 256 :=
  (List.finRange 256).foldl (fun inverse c => Function.update inverse (m c) c) (fun _ => 0)

/-- The chunk that `chunk_remap_palette_invert` emits onto the destination
stream via `chunk_remap_palette_new`: same sprite and frame range, inverse
mapping.  (The inverter additionally calls `sprite->remapImages` with the
inverse mapping; the live-pixel side is outside this algebraic claim.) -/
def chunk_remap_palette_invert_chunk (chunk : UndoChunkRemapPalette) : UndoChunkRemapPalette :=
  { chunk with mapping := chunk_remap_palette_inverse chunk.mapping }

/-- Modelled from the spec: the image-type tags (`raster/image.h` is not
among the sources at hand).  Only distinctness matters here. -/
def IMAGE_RGB : Nat := 0

/-- Modelled from the spec: the GRAYSCALE image-type tag. -/
def IMAGE_GRAYSCALE : Nat := 1

/-- Modelled from the spec: the INDEXED image-type tag. -/
def IMAGE_INDEXED : Nat := 2

/-- Modelled from the spec: `image_line_size(image, width)` — bytes per row
of `width` pixels: RGB 4 bytes/pixel, Grayscale 2, Indexed 1 (§6.1). -/
def image_line_size (imgtype w : Nat) : Nat :=
  if imgtype = IMAGE_RGB then 4 * w
  else if imgtype = IMAGE_GRAYSCALE then 2 * w
  else w

/-- A live `Image` as the IMAGE codec sees it: its `ObjectsContainer` id,
`imgtype`, dimensions, and pixel bytes addressed by row and byte offset
within the row (`pix y b`; pixel `(x, y)` starts at byte
`image_line_size imgtype x` of row `y`, which is what `image_address`
computes). -/
structure ImageObj where
  id : Nat
  imgtype : Nat
  w : Nat
  h : Nat
  pix : Nat → Nat → Nat

/-- Payload of an `UndoChunkImage`: image id, image type, rectangle, and
the saved pixel rows (`data v b` = byte `b` of saved row `v`). -/
structure UndoChunkImage where
  image_id : Nat
  imgtype : Nat
  x : Nat
  y : Nat
  w : Nat
  h : Nat
  data : Nat → Nat → Nat

/-- `chunk_image_new(stream, image, x, y, w, h)`: records the image's id
and type and copies, for each `v < h`, `image_line_size(imgtype, w)` bytes
of row `y + v` starting at pixel `x`, then pushes the chunk onto the
stream. -/
def chunk_image_new (stream : List UndoChunkImage) (image : ImageObj)
    (x y w h : Nat) : List UndoChunkImage :=
  { image_id := image.id, imgtype := image.imgtype, x := x, y := y, w := w, h := h,
    data := fun v b => image.pix (y + v) (image_line_size image.imgtype x + b) } :: stream

/-- The restore loop of `chunk_image_invert`: for each `v < chunk.h`,
overwrite `image_line_size(imgtype, chunk.w)` bytes of row `chunk.y + v`
starting at pixel `chunk.x` with the chunk's saved bytes. -/
def image_write_rect (image : ImageObj) (chunk : UndoChunkImage) : ImageObj :=
  { image with pix := fun yy b =>
      if chunk.y ≤ yy ∧ yy < chunk.y + chunk.h ∧
          image_line_size image.imgtype chunk.x ≤ b ∧
          b < image_line_size image.imgtype chunk.x + image_line_size image.imgtype chunk.w then
        chunk.data (yy - chunk.y) (b - image_line_size image.imgtype chunk.x)
      else image.pix yy b }

/-- `chunk_image_invert(stream, chunk)`: resolve the image id, raise
`UndoException("Image type does not match")` when the live image's type
differs from the chunk's, otherwise back up the current rectangle with
`chunk_image_new` and then restore the chunk's stored rows into the image.
(The source dereferences the lookup result unchecked; the `none` branch is
never reached under the claim's liveness hypothesis.) -/
def chunk_image_invert (objects : Nat → Option ImageObj)
    (stream : List UndoChunkImage) (chunk : UndoChunkImage) :
    Except String (List UndoChunkImage × ImageObj) :=
  match objects chunk.image_id with
  | none => Except.error "null image"
  | some image =>
    if image.imgtype ≠ chunk.imgtype then
      Except.error "Image type does not match"
    else
      Except.ok (chunk_image_new stream image chunk.x chunk.y chunk.w chunk.h,
        image_write_rect image chunk)

/-- The `write_raw_uint8` macro: one byte, little-endian layout. -/
def w8 (v : Nat) : List Nat := [v % 256]

/-- The `write_raw_uint16` macro: two bytes, little-endian. -/
def w16 (v : Nat) : List Nat := [v % 256, v / 256 % 256]

/-- The `write_raw_uint32` macro: four bytes, little-endian. -/
def w32 (v : Nat) : List Nat :=
  [v % 256, v / 2 ^ 8 % 256, v / 2 ^ 16 % 256, v / 2 ^ 24 % 256]

/-- The `write_raw_int16` macro: the value truncated to 16 bits. -/
def wi16 (v : Int) : List Nat := w16 (v % 65536).toNat

/-- A `Cel` as the raw-cel codec sees it (with its container id). -/
structure CelObj where
  id : Nat
  frame : Nat
  image : Nat
  x : Int
  y : Int
  opacity : Nat

/-- An `Image` as the raw-image codec sees it: container id, type,
dimensions, mask color, and pixel bytes by row (`line c b` = byte `b` of
row `c`, as `image->line[c]` addresses them). -/
structure RawImage where
  id : Nat
  imgtype : Nat
  w : Nat
  h : Nat
  maskColor : Nat
  line : Nat → Nat → Nat

/-- `write_raw_cel`: `u32 id; u16 frame; u16 image; i16 x; i16 y;
u16 opacity`. -/
def write_raw_cel (cel : CelObj) : List Nat :=
  w32 cel.id ++ w16 cel.frame ++ w16 cel.image ++ wi16 cel.x ++ wi16 cel.y ++
    w16 cel.opacity

/-- `get_raw_cel_size`: `4 + 2*5`. -/
def get_raw_cel_size (_cel : CelObj) : Nat := 4 + 2 * 5

/-- `write_raw_image`: `u32 id; u8 imgtype; u16 w; u16 h; u32 mask_color`
followed by `h` rows of `image_line_size(imgtype, w)` bytes each. -/
def write_raw_image (image : RawImage) : List Nat :=
  w32 image.id ++ w8 image.imgtype ++ w16 image.w ++ w16 image.h ++ w32 image.maskColor ++
    (List.range image.h).foldr
      (fun c acc => (List.range (image_line_size image.imgtype image.w)).map (image.line c) ++ acc) []

/-- `get_raw_image_size`: `4+1+2+2+4 + image_line_size(image, w) * h`. -/
def get_raw_image_size (image : RawImage) : Nat :=
  4 + 1 + 2 + 2 + 4 + image_line_size image.imgtype image.w * image.h

/-- Modelled from the spec: the `GFXOBJ_LAYER_IMAGE` type tag
(`raster/gfxobj.h` is not among the sources at hand); written as a `u16`,
its numeric value does not affect any claim here. -/
def GFXOBJ_LAYER_IMAGE : Nat := 4

/-- Modelled from the spec: the `GFXOBJ_LAYER_FOLDER` type tag. -/
def GFXOBJ_LAYER_FOLDER : Nat := 5

/-- A `Layer` as the raw-layer codec sees it: an image layer with its cels
(each cel paired with the stock image it references, which is what
`layer->getSprite()->getStock()->getImage(cel->image)` fetches), or a
folder with sub-layers.  Common attributes: container id, name bytes,
flags, owning sprite id. -/
inductive LayerObj where
  | image : Nat → List Nat → Nat → Nat → List (CelObj × RawImage) → LayerObj
  | folder : Nat → List Nat → Nat → Nat → List LayerObj → LayerObj

/-- `write_raw_layer`: the common header `u32 id; u16 nameLen; name bytes;
u8 flags; u16 type; u32 spriteId`, then for an image layer `u16 celCount`
and per cel the cel blob, a `u8 1` "has image" marker and the image blob;
for a folder `u16 childCount` and the children's blobs. -/
def write_raw_layer : LayerObj → List Nat
  | .image id name flags spriteId cels =>
    w32 id ++ w16 name.length ++ name ++ w8 flags ++ w16 GFXOBJ_LAYER_IMAGE ++
      w32 spriteId ++ w16 cels.length ++
      (cels.foldr (fun ci acc => write_raw_cel ci.1 ++ w8 1 ++ write_raw_image ci.2 ++ acc) [])
  | .folder id name flags spriteId children =>
    w32 id ++ w16 name.length ++ name ++ w8 flags ++ w16 GFXOBJ_LAYER_FOLDER ++
      w32 spriteId ++ w16 children.length ++
      (children.attach.foldr (fun child acc => write_raw_layer child.1 ++ acc) [])
decreasing_by
  have h := List.sizeOf_lt_of_mem child.2
  simp only [LayerObj.folder.sizeOf_spec]
  omega

/-- `get_raw_layer_size`: starts from `4+2+name.size()+1+2+4`; an image
layer adds `1` ("blend mode"), `2` (cel count) and, per cel, the cel size,
`1` ("has image?") and the image size; a folder adds `2` (child count) and
the children's sizes. -/
def get_raw_layer_size : LayerObj → Nat
  | .image _ name _ _ cels =>
    4 + 2 + name.length + 1 + 2 + 4 + 1 + 2 +
      (cels.foldr (fun ci acc => get_raw_cel_size ci.1 + 1 + get_raw_image_size ci.2 + acc) 0)
  | .folder _ name _ _ children =>
    4 + 2 + name.length + 1 + 2 + 4 + 2 +
      (children.attach.foldr (fun child acc => get_raw_layer_size child.1 + acc) 0)
decreasing_by
  have h := List.sizeOf_lt_of_mem child.2
  simp only [LayerObj.folder.sizeOf_spec]
  omega

/-- One complete top-level entry at the head of a stream: a non-empty run
of chunks whose overall OPEN/CLOSE depth is zero while no shorter non-empty
head run is already balanced (a single non-group chunk, or one whole
top-level group with all its nesting). -/
def WholeGroup (g : List UndoChunk) : Prop :=
  g ≠ [] ∧ depthSum g = 0 ∧ ∀ j, 1 ≤ j → j < g.length → depthSum (g.take j) ≠ 0

/-- Per-chunk `m_diffCount` step of `runUndo`: `-1` for `DO_UNDO`, `+1` for
`DO_REDO`. -/
def dirStep (state : Nat) : Int :=
  if state = DO_UNDO then -1 else if state = DO_REDO then 1 else 0

/-- Total declared size of a recording sequence. -/
def sizesTotal (cs : List (Nat × Nat)) : Nat :=
  (cs.map Prod.snd).sum

/-- A concrete inverter used by closed instances: every inversion pushes
exactly one chunk (the popped chunk itself) and leaves the (trivial) live
state alone. -/
def invConst : UndoChunk → List UndoChunk → Unit → List UndoChunk × Unit :=
  fun c dst _ => (c :: dst, ())

/-- A concrete live image used by closed instances. -/
def exImage : ImageObj :=
  { id := 1, imgtype := IMAGE_INDEXED, w := 8, h := 8, pix := fun _ _ => 7 }

/-- A concrete `ObjectsContainer` lookup in which id 1 is `exImage`. -/
def exObjects : Nat → Option ImageObj :=
  fun i => if i = 1 then some exImage else none

/-- A concrete IMAGE chunk whose id resolves to `exImage`. -/
def exChunkImage : UndoChunkImage :=
  { image_id := 1, imgtype := IMAGE_INDEXED, x := 2, y := 1, w := 3, h := 2,
    data := fun v b => v * 10 + b }

/-- A concrete layer for evaluating the raw-layer codec: an image layer
with an empty name and no cels. -/
def exRemovedLayer : LayerObj :=
  LayerObj.image 1 [] 0 1 []

/-- A concrete history with a single recorded DATA chunk, used by closed
instances. -/
def exHistory3 : UndoHistory :=
  { undoStream := [⟨UNDO_TYPE_DATA, 10, "data"⟩], redoStream := [],
    diffCount := 1, diffSaved := 0, enabled := true, label := none }

/-! Basic facts about the shared inner loop (`consumeCount`) and the
running depth (`depthSum`, `zerosFrom`). -/

theorem depthSum_nil : depthSum [] = 0 := rfl

theorem depthSum_cons (c : UndoChunk) (l : List UndoChunk) :
    depthSum (c :: l) = typeDelta c.type + depthSum l := by
  simp [depthSum]

theorem depthSum_append (p r : List UndoChunk) :
    depthSum (p ++ r) = depthSum p + depthSum r := by
  simp [depthSum]

theorem depthSum_reverse (l : List UndoChunk) : depthSum l.reverse = depthSum l := by
  simp [depthSum, List.map_reverse, List.sum_reverse]

theorem consumeCount_cons (c : UndoChunk) (rest : List UndoChunk) (lv : Int) :
    consumeCount (c :: rest) lv =
      if lv + typeDelta c.type = 0 then 1
      else 1 + consumeCount rest (lv + typeDelta c.type) := rfl

theorem consumeCount_pos (c : UndoChunk) (rest : List UndoChunk) (lv : Int) :
    1 ≤ consumeCount (c :: rest) lv := by
  rw [consumeCount_cons]
  split <;> omega

theorem consumeCount_le : ∀ (l : List UndoChunk) (lv : Int), consumeCount l lv ≤ l.length := by
  intro l
  induction l with
  | nil => intro lv; simp [consumeCount]
  | cons c rest ih =>
    intro lv
    rw [consumeCount_cons]
    split
    · simp
    · have h := ih (lv + typeDelta c.type)
      simp only [List.length_cons]
      omega

theorem consumeCount_min : ∀ (l : List UndoChunk) (lv : Int) (j : Nat),
    1 ≤ j → j < consumeCount l lv → lv + depthSum (l.take j) ≠ 0 := by
  intro l
  induction l with
  | nil =>
    intro lv j h1 h2
    simp [consumeCount] at h2
  | cons c rest ih =>
    intro lv j h1 h2
    rw [consumeCount_cons] at h2
    by_cases h0 : lv + typeDelta c.type = 0
    · rw [if_pos h0] at h2; omega
    · rw [if_neg h0] at h2
      obtain ⟨j', rfl⟩ : ∃ j', j = j' + 1 := ⟨j - 1, by omega⟩
      rw [List.take_succ_cons, depthSum_cons, ← add_assoc]
      rcases Nat.eq_zero_or_pos j' with hj | hj
      · subst hj
        simpa [depthSum_nil] using h0
      · exact ih (lv + typeDelta c.type) j' hj (by omega)

theorem consumeCount_last : ∀ (l : List UndoChunk) (lv : Int),
    consumeCount l lv = l.length ∨ lv + depthSum (l.take (consumeCount l lv)) = 0 := by
  intro l
  induction l with
  | nil => intro lv; left; simp [consumeCount]
  | cons c rest ih =>
    intro lv
    rw [consumeCount_cons]
    by_cases h0 : lv + typeDelta c.type = 0
    · right
      rw [if_pos h0, List.take_succ_cons, List.take_zero, depthSum_cons, depthSum_nil]
      omega
    · rw [if_neg h0]
      rcases ih (lv + typeDelta c.type) with h | h
      · left
        rw [h, List.length_cons]
        omega
      · right
        rw [Nat.add_comm 1 (consumeCount rest (lv + typeDelta c.type)),
          List.take_succ_cons, depthSum_cons, ← add_assoc]
        exact h

theorem consumeCount_whole_aux : ∀ (g : List UndoChunk), ∀ (rest : List UndoChunk) (lv : Int),
    g ≠ [] → lv + depthSum g = 0 →
    (∀ j, 1 ≤ j → j < g.length → lv + depthSum (g.take j) ≠ 0) →
    consumeCount (g ++ rest) lv = g.length := by
  intro g
  induction g with
  | nil => intro rest lv h; cases h rfl
  | cons c g' ih =>
    intro rest lv _ hsum hmin
    rw [List.cons_append, consumeCount_cons]
    cases g' with
    | nil =>
      rw [depthSum_cons, depthSum_nil] at hsum
      rw [if_pos (by omega)]
      rfl
    | cons d g'' =>
      have h0 : lv + typeDelta c.type ≠ 0 := by
        have := hmin 1 le_rfl (by simp)
        rw [List.take_succ_cons, List.take_zero, depthSum_cons, depthSum_nil] at this
        omega
      rw [if_neg h0]
      rw [ih rest (lv + typeDelta c.type) (by simp)
        (by rw [depthSum_cons] at hsum; omega)
        (fun j h1 h2 => by
          have := hmin (j + 1) (by omega) (by simp only [List.length_cons] at h2 ⊢; omega)
          rw [List.take_succ_cons, depthSum_cons, ← add_assoc] at this
          exact this)]
      simp [List.length_cons]
      omega

theorem zerosFrom_cons (c : UndoChunk) (rest : List UndoChunk) (acc : Int) :
    zerosFrom (c :: rest) acc =
      (if acc + typeDelta c.type = 0 then 1 else 0) +
        zerosFrom rest (acc + typeDelta c.type) := rfl

theorem zerosFrom_append : ∀ (p r : List UndoChunk) (acc : Int),
    zerosFrom (p ++ r) acc = zerosFrom p acc + zerosFrom r (acc + depthSum p) := by
  intro p
  induction p with
  | nil => intro r acc; simp [zerosFrom, depthSum_nil]
  | cons c p' ih =>
    intro r acc
    rw [List.cons_append, zerosFrom_cons, zerosFrom_cons, ih, depthSum_cons, add_assoc]
    omega

theorem zerosFrom_minimal : ∀ (p : List UndoChunk) (acc : Int), p ≠ [] →
    (∀ j, 1 ≤ j → j < p.length → acc + depthSum (p.take j) ≠ 0) →
    zerosFrom p acc = if acc + depthSum p = 0 then 1 else 0 := by
  intro p
  induction p with
  | nil => intro acc h; cases h rfl
  | cons c p' ih =>
    intro acc _ hmin
    rw [zerosFrom_cons, depthSum_cons]
    cases p' with
    | nil =>
      rw [show zerosFrom [] (acc + typeDelta c.type) = 0 from rfl, depthSum_nil]
      by_cases h : acc + typeDelta c.type = 0
      · rw [if_pos h, if_pos (by omega)]
      · rw [if_neg h, if_neg (by omega)]
    | cons d p'' =>
      have h0 : acc + typeDelta c.type ≠ 0 := by
        have := hmin 1 le_rfl (by simp)
        rw [List.take_succ_cons, List.take_zero, depthSum_cons, depthSum_nil] at this
        omega
      rw [if_neg h0, ih (acc + typeDelta c.type) (by simp)
        (fun j h1 h2 => by
          have := hmin (j + 1) (by omega) (by simp only [List.length_cons] at h2 ⊢; omega)
          rw [List.take_succ_cons, depthSum_cons, ← add_assoc] at this
          exact this)]
      by_cases h : acc + typeDelta c.type + depthSum (d :: p'') = 0
      · rw [if_pos h, if_pos (by omega)]
      · rw [if_neg h, if_neg (by omega)]

/-! The nested loops of `count_undo_groups` and `out_of_group`. -/

theorem cugLoop_eq_zeros : ∀ (n : Nat) (l : List UndoChunk), l.length ≤ n →
    ∀ g, cugLoop l g = g + zerosFrom l 0 := by
  intro n
  induction n with
  | zero =>
    intro l hl g
    have hnil : l = [] := List.eq_nil_of_length_eq_zero (by omega)
    subst hnil
    simp [cugLoop, zerosFrom]
  | succ n ih =>
    intro l hl g
    match l with
    | [] => simp [cugLoop, zerosFrom]
    | c :: rest =>
      rw [cugLoop]
      have hk1 := consumeCount_pos c rest 0
      have hk2 := consumeCount_le (c :: rest) 0
      have hlen : ((c :: rest).take (consumeCount (c :: rest) 0)).length =
          consumeCount (c :: rest) 0 := by
        rw [List.length_take]
        omega
      have hne : (c :: rest).take (consumeCount (c :: rest) 0) ≠ [] := by
        intro hcon
        rw [hcon] at hlen
        simp at hlen
        omega
      have hmin : ∀ j, 1 ≤ j → j < ((c :: rest).take (consumeCount (c :: rest) 0)).length →
          (0 : Int) + depthSum (((c :: rest).take (consumeCount (c :: rest) 0)).take j) ≠ 0 := by
        intro j h1 h2
        rw [hlen] at h2
        rw [List.take_take, min_eq_left (by omega), zero_add]
        exact fun hcon => consumeCount_min (c :: rest) 0 j h1 h2 (by omega)
      have hz : zerosFrom (c :: rest) 0 =
          zerosFrom ((c :: rest).take (consumeCount (c :: rest) 0)) 0 +
            zerosFrom ((c :: rest).drop (consumeCount (c :: rest) 0))
              (0 + depthSum ((c :: rest).take (consumeCount (c :: rest) 0))) := by
        conv_lhs => rw [← List.take_append_drop (consumeCount (c :: rest) 0) (c :: rest)]
        rw [zerosFrom_append]
      have hdroplen : ((c :: rest).drop (consumeCount (c :: rest) 0)).length ≤ n := by
        rw [List.length_drop]
        simp only [List.length_cons] at hl ⊢
        omega
      by_cases hs : depthSum ((c :: rest).take (consumeCount (c :: rest) 0)) = 0
      · rw [if_pos hs, ih _ hdroplen (g + 1), hz,
          zerosFrom_minimal _ _ hne hmin, if_pos (by omega), hs]
        simp only [zero_add, add_zero]
        omega
      · have hklen : consumeCount (c :: rest) 0 = (c :: rest).length := by
          rcases consumeCount_last (c :: rest) 0 with h | h
          · exact h
          · exact absurd (by omega) hs
        have hdrop : (c :: rest).drop (consumeCount (c :: rest) 0) = [] := by
          rw [hklen, List.drop_length]
        rw [if_neg hs, hdrop, hz, hdrop,
          zerosFrom_minimal _ _ hne hmin, if_neg (by omega)]
        simp [cugLoop, zerosFrom]

theorem count_eq_zeros (l : List UndoChunk) : count_undo_groups l = zerosFrom l 0 := by
  have := cugLoop_eq_zeros l.length l le_rfl 0
  simpa [count_undo_groups] using this

theorem oogLoop_ne_nil : ∀ (n : Nat) (l : List UndoChunk), l.length ≤ n → l ≠ [] →
    ∀ lv, oogLoop l lv = depthSum l := by
  intro n
  induction n with
  | zero =>
    intro l hl hne
    exact absurd (List.eq_nil_of_length_eq_zero (by omega)) hne
  | succ n ih =>
    intro l hl hne lv
    match l with
    | c :: rest =>
      rw [oogLoop]
      have hk1 := consumeCount_pos c rest 0
      have hk2 := consumeCount_le (c :: rest) 0
      have hsplit : depthSum (c :: rest) =
          depthSum ((c :: rest).take (consumeCount (c :: rest) 0)) +
            depthSum ((c :: rest).drop (consumeCount (c :: rest) 0)) := by
        conv_lhs => rw [← List.take_append_drop (consumeCount (c :: rest) 0) (c :: rest)]
        rw [depthSum_append]
      have hdroplen : ((c :: rest).drop (consumeCount (c :: rest) 0)).length ≤ n := by
        rw [List.length_drop]
        simp only [List.length_cons] at hl ⊢
        omega
      by_cases hd : (c :: rest).drop (consumeCount (c :: rest) 0) = []
      · rw [hd]
        rw [hd, depthSum_nil] at hsplit
        simp [oogLoop]
        omega
      · rw [ih _ hdroplen hd]
        have hs : depthSum ((c :: rest).take (consumeCount (c :: rest) 0)) = 0 := by
          rcases consumeCount_last (c :: rest) 0 with h | h
          · exfalso
            apply hd
            rw [h, List.drop_length]
          · omega
        omega

theorem out_of_group_iff (l : List UndoChunk) :
    out_of_group l = true ↔ depthSum l = 0 := by
  unfold out_of_group
  cases hl : l with
  | nil => simp [oogLoop, depthSum_nil]
  | cons c rest =>
    rw [oogLoop_ne_nil (c :: rest).length (c :: rest) le_rfl (by simp) 0]
    simp

theorem topEntries_eq_zeros : ∀ (n : Nat) (l : List UndoChunk), l.length ≤ n →
    depthSum l = 0 → topEntriesCount l = zerosFrom l 0 := by
  intro n
  induction n with
  | zero =>
    intro l hl _
    have hnil : l = [] := List.eq_nil_of_length_eq_zero (by omega)
    subst hnil
    simp [topEntriesCount, zerosFrom]
  | succ n ih =>
    intro l hl hsum
    match l with
    | [] => simp [topEntriesCount, zerosFrom]
    | c :: rest =>
      rw [topEntriesCount]
      have hk1 := consumeCount_pos c rest 0
      have hk2 := consumeCount_le (c :: rest) 0
      have hlen : ((c :: rest).take (consumeCount (c :: rest) 0)).length =
          consumeCount (c :: rest) 0 := by
        rw [List.length_take]
        omega
      have hne : (c :: rest).take (consumeCount (c :: rest) 0) ≠ [] := by
        intro hcon
        rw [hcon] at hlen
        simp at hlen
        omega
      have hmin : ∀ j, 1 ≤ j → j < ((c :: rest).take (consumeCount (c :: rest) 0)).length →
          (0 : Int) + depthSum (((c :: rest).take (consumeCount (c :: rest) 0)).take j) ≠ 0 := by
        intro j h1 h2
        rw [hlen] at h2
        rw [List.take_take, min_eq_left (by omega), zero_add]
        exact fun hcon => consumeCount_min (c :: rest) 0 j h1 h2 (by omega)
      have hsplit : depthSum (c :: rest) =
          depthSum ((c :: rest).take (consumeCount (c :: rest) 0)) +
            depthSum ((c :: rest).drop (consumeCount (c :: rest) 0)) := by
        conv_lhs => rw [← List.take_append_drop (consumeCount (c :: rest) 0) (c :: rest)]
        rw [depthSum_append]
      have hs : depthSum ((c :: rest).take (consumeCount (c :: rest) 0)) = 0 := by
        rcases consumeCount_last (c :: rest) 0 with h | h
        · rw [h, List.take_length]
          exact hsum
        · omega
      have hdroplen : ((c :: rest).drop (consumeCount (c :: rest) 0)).length ≤ n := by
        rw [List.length_drop]
        simp only [List.length_cons] at hl ⊢
        omega
      have hz : zerosFrom (c :: rest) 0 =
          zerosFrom ((c :: rest).take (consumeCount (c :: rest) 0)) 0 +
            zerosFrom ((c :: rest).drop (consumeCount (c :: rest) 0))
              (0 + depthSum ((c :: rest).take (consumeCount (c :: rest) 0))) := by
        conv_lhs => rw [← List.take_append_drop (consumeCount (c :: rest) 0) (c :: rest)]
        rw [zerosFrom_append]
      rw [ih _ hdroplen (by omega), hz, zerosFrom_minimal _ _ hne hmin, if_pos (by omega), hs]
      simp only [zero_add, add_zero]

/-- Claim C6: for every stream of chunks, `out_of_group` returns `true` if
and only if the running OPEN/CLOSE depth computed over the entire stream
contents (number of OPEN chunks minus number of CLOSE chunks) is zero —
despite its inner loop resetting the depth counter at each outer iteration.
(Every inner run that stops before the end of the stream stops exactly at
depth zero, so the level left by the last run equals the whole-stream
depth.) -/
theorem claim_C6 (l : List UndoChunk) :
    out_of_group l = true ↔ depthSum l = 0 :=
  out_of_group_iff l

/-- Claim C5: on a well-formed stream (running depth never negative, every
OPEN matched by a CLOSE), `count_undo_groups` returns the number of times
the running depth returns to 0 while walking head to tail, which equals
the number of top-level entries (top-level single chunks plus top-level
groups). -/
theorem claim_C5 (l : List UndoChunk)
    (_hnonneg : ∀ j, j ≤ l.length → 0 ≤ depthSum (l.take j))
    (hbal : depthSum l = 0) :
    count_undo_groups l = zerosFrom l 0 ∧ zerosFrom l 0 = topEntriesCount l :=
  ⟨count_eq_zeros l, (topEntries_eq_zeros l.length l le_rfl hbal).symm⟩

/-- Witness for C5 at a concrete well-formed stream: one group and one
top-level single chunk. -/
theorem claim_C5_witness :
    count_undo_groups
        [⟨UNDO_TYPE_OPEN, 16, "open"⟩, ⟨UNDO_TYPE_DATA, 30, "data"⟩,
         ⟨UNDO_TYPE_CLOSE, 16, "close"⟩, ⟨UNDO_TYPE_DATA, 28, "data"⟩] =
      zerosFrom
        [⟨UNDO_TYPE_OPEN, 16, "open"⟩, ⟨UNDO_TYPE_DATA, 30, "data"⟩,
         ⟨UNDO_TYPE_CLOSE, 16, "close"⟩, ⟨UNDO_TYPE_DATA, 28, "data"⟩] 0 ∧
    zerosFrom
        [⟨UNDO_TYPE_OPEN, 16, "open"⟩, ⟨UNDO_TYPE_DATA, 30, "data"⟩,
         ⟨UNDO_TYPE_CLOSE, 16, "close"⟩, ⟨UNDO_TYPE_DATA, 28, "data"⟩] 0 =
      topEntriesCount
        [⟨UNDO_TYPE_OPEN, 16, "open"⟩, ⟨UNDO_TYPE_DATA, 30, "data"⟩,
         ⟨UNDO_TYPE_CLOSE, 16, "close"⟩, ⟨UNDO_TYPE_DATA, 28, "data"⟩] :=
  claim_C5 _ (by decide) (by decide)

/-! The `runUndo` loop. -/

theorem runUndoLoop_cons {W : Type}
    (invert : UndoChunk → List UndoChunk → W → List UndoChunk × W) (state : Nat)
    (c : UndoChunk) (rest dst : List UndoChunk) (w : W) (diff : Int)
    (lab : Option String) (level : Int) :
    runUndoLoop invert state (c :: rest) dst w diff lab level =
      if level + typeDelta c.type = 0 then
        { src := rest, dst := (invert c dst w).1, world := (invert c dst w).2,
          diffCount := if state = DO_UNDO then diff - 1
            else if state = DO_REDO then diff + 1 else diff,
          label := some c.label }
      else
        runUndoLoop invert state rest (invert c dst w).1 (invert c dst w).2
          (if state = DO_UNDO then diff - 1 else if state = DO_REDO then diff + 1 else diff)
          (some c.label) (level + typeDelta c.type) := rfl

theorem runUndoLoop_src {W : Type}
    (invert : UndoChunk → List UndoChunk → W → List UndoChunk × W) (state : Nat) :
    ∀ (src dst : List UndoChunk) (w : W) (diff : Int) (lab : Option String) (level : Int),
    (runUndoLoop invert state src dst w diff lab level).src =
      src.drop (consumeCount src level) := by
  intro src
  induction src with
  | nil => intro dst w diff lab level; simp [runUndoLoop, consumeCount]
  | cons c rest ih =>
    intro dst w diff lab level
    rw [runUndoLoop_cons, consumeCount_cons]
    by_cases h0 : level + typeDelta c.type = 0
    · rw [if_pos h0, if_pos h0]
      simp
    · rw [if_neg h0, if_neg h0, ih, Nat.add_comm 1 _, List.drop_succ_cons]

theorem runUndoLoop_diff {W : Type}
    (invert : UndoChunk → List UndoChunk → W → List UndoChunk × W) (state : Nat) :
    ∀ (src dst : List UndoChunk) (w : W) (diff : Int) (lab : Option String) (level : Int),
    (runUndoLoop invert state src dst w diff lab level).diffCount =
      diff + dirStep state * consumeCount src level := by
  intro src
  induction src with
  | nil => intro dst w diff lab level; simp [runUndoLoop, consumeCount]
  | cons c rest ih =>
    intro dst w diff lab level
    rw [runUndoLoop_cons, consumeCount_cons]
    by_cases h0 : level + typeDelta c.type = 0
    · rw [if_pos h0, if_pos h0]
      simp only [dirStep]
      split_ifs <;> simp <;> try ring
    · rw [if_neg h0, if_neg h0, ih]
      simp only [dirStep]
      push_cast
      split_ifs <;> ring

theorem runUndoLoop_dst_len {W : Type}
    (invert : UndoChunk → List UndoChunk → W → List UndoChunk × W) (state : Nat)
    (hinv : ∀ (c : UndoChunk) (d : List UndoChunk) (w : W),
      ((invert c d w).1).length = d.length + 1) :
    ∀ (src dst : List UndoChunk) (w : W) (diff : Int) (lab : Option String) (level : Int),
    (runUndoLoop invert state src dst w diff lab level).dst.length =
      dst.length + consumeCount src level := by
  intro src
  induction src with
  | nil => intro dst w diff lab level; simp [runUndoLoop, consumeCount]
  | cons c rest ih =>
    intro dst w diff lab level
    rw [runUndoLoop_cons, consumeCount_cons]
    by_cases h0 : level + typeDelta c.type = 0
    · rw [if_pos h0, if_pos h0]
      simpa using hinv c dst w
    · rw [if_neg h0, if_neg h0, ih, hinv c dst w]
      omega

theorem doUndo_fields {W : Type}
    (invert : UndoChunk → List UndoChunk → W → List UndoChunk × W)
    (h : UndoHistory) (w : W) :
    (doUndo invert h w).1.undoStream = h.undoStream.drop (consumeCount h.undoStream 0) ∧
    (doUndo invert h w).1.diffCount = h.diffCount - consumeCount h.undoStream 0 ∧
    (doUndo invert h w).1.diffSaved = h.diffSaved := by
  unfold doUndo runUndo
  rw [if_pos rfl]
  refine ⟨?_, ?_, rfl⟩
  · simpa using runUndoLoop_src invert DO_UNDO h.undoStream h.redoStream w h.diffCount h.label 0
  · show (runUndoLoop invert DO_UNDO h.undoStream h.redoStream w h.diffCount h.label 0).diffCount = _
    rw [runUndoLoop_diff]
    simp only [dirStep, DO_UNDO, DO_REDO]
    norm_num
    ring

theorem doUndo_redo_len {W : Type}
    (invert : UndoChunk → List UndoChunk → W → List UndoChunk × W)
    (hinv : ∀ (c : UndoChunk) (d : List UndoChunk) (w : W),
      ((invert c d w).1).length = d.length + 1)
    (h : UndoHistory) (w : W) :
    (doUndo invert h w).1.redoStream.length =
      h.redoStream.length + consumeCount h.undoStream 0 := by
  unfold doUndo runUndo
  rw [if_pos rfl]
  simpa using runUndoLoop_dst_len invert DO_UNDO hinv h.undoStream h.redoStream w h.diffCount h.label 0

theorem doRedo_fields {W : Type}
    (invert : UndoChunk → List UndoChunk → W → List UndoChunk × W)
    (h : UndoHistory) (w : W) :
    (doRedo invert h w).1.redoStream = h.redoStream.drop (consumeCount h.redoStream 0) ∧
    (doRedo invert h w).1.diffCount = h.diffCount + consumeCount h.redoStream 0 ∧
    (doRedo invert h w).1.diffSaved = h.diffSaved := by
  unfold doRedo runUndo
  rw [if_neg (by simp [DO_REDO, DO_UNDO])]
  refine ⟨?_, ?_, rfl⟩
  · simpa using runUndoLoop_src invert DO_REDO h.redoStream h.undoStream w h.diffCount h.label 0
  · show (runUndoLoop invert DO_REDO h.redoStream h.undoStream w h.diffCount h.label 0).diffCount = _
    rw [runUndoLoop_diff]
    simp only [dirStep, DO_UNDO, DO_REDO]
    norm_num

theorem doRedo_undo_len {W : Type}
    (invert : UndoChunk → List UndoChunk → W → List UndoChunk × W)
    (hinv : ∀ (c : UndoChunk) (d : List UndoChunk) (w : W),
      ((invert c d w).1).length = d.length + 1)
    (h : UndoHistory) (w : W) :
    (doRedo invert h w).1.undoStream.length =
      h.undoStream.length + consumeCount h.redoStream 0 := by
  unfold doRedo runUndo
  rw [if_neg (by simp [DO_REDO, DO_UNDO])]
  simpa using runUndoLoop_dst_len invert DO_REDO hinv h.redoStream h.undoStream w h.diffCount h.label 0

theorem typeDelta_other (t : Nat) (h1 : t ≠ UNDO_TYPE_OPEN) (h2 : t ≠ UNDO_TYPE_CLOSE) :
    typeDelta t = 0 := by
  simp [typeDelta, h1, h2]

theorem consumeCount_whole (g rest : List UndoChunk) (hg : WholeGroup g) :
    consumeCount (g ++ rest) 0 = g.length := by
  refine consumeCount_whole_aux g rest 0 hg.1 (by rw [zero_add]; exact hg.2.1) ?_
  intro j h1 h2
  rw [zero_add]
  exact hg.2.2 j h1 h2

/-- Claim C1: for every non-empty source stream whose head chunk is a
top-level non-group chunk, `runUndo` (`doUndo`/`doRedo`) pops and applies
exactly one chunk; if the head chunk is an OPEN, `runUndo` pops chunks
until the running OPEN/CLOSE depth returns to zero, so the whole group is
consumed from the source stream and — one inverse chunk being pushed per
applied chunk (`hinv`) — one inverse per consumed chunk appears on the
destination stream: a group is never left partially applied. -/
theorem claim_C1 {W : Type}
    (invert : UndoChunk → List UndoChunk → W → List UndoChunk × W)
    (hinv : ∀ (c : UndoChunk) (d : List UndoChunk) (w : W),
      ((invert c d w).1).length = d.length + 1)
    (h : UndoHistory) (w : W) :
    (∀ c rest, h.undoStream = c :: rest →
      c.type ≠ UNDO_TYPE_OPEN → c.type ≠ UNDO_TYPE_CLOSE →
      (doUndo invert h w).1.undoStream = rest ∧
      (doUndo invert h w).1.redoStream.length = h.redoStream.length + 1) ∧
    (∀ g rest, h.undoStream = g ++ rest → WholeGroup g →
      (∀ c, g.head? = some c → c.type = UNDO_TYPE_OPEN) →
      (doUndo invert h w).1.undoStream = rest ∧
      (doUndo invert h w).1.redoStream.length = h.redoStream.length + g.length) ∧
    (∀ c rest, h.redoStream = c :: rest →
      c.type ≠ UNDO_TYPE_OPEN → c.type ≠ UNDO_TYPE_CLOSE →
      (doRedo invert h w).1.redoStream = rest ∧
      (doRedo invert h w).1.undoStream.length = h.undoStream.length + 1) ∧
    (∀ g rest, h.redoStream = g ++ rest → WholeGroup g →
      (∀ c, g.head? = some c → c.type = UNDO_TYPE_OPEN) →
      (doRedo invert h w).1.redoStream = rest ∧
      (doRedo invert h w).1.undoStream.length = h.undoStream.length + g.length) := by
  refine ⟨?_, ?_, ?_, ?_⟩
  · intro c rest hsrc h1 h2
    have hk : consumeCount h.undoStream 0 = 1 := by
      rw [hsrc, consumeCount_cons, typeDelta_other c.type h1 h2]
      simp
    refine ⟨?_, ?_⟩
    · rw [(doUndo_fields invert h w).1, hk, hsrc, List.drop_succ_cons, List.drop_zero]
    · rw [doUndo_redo_len invert hinv h w, hk]
  · intro g rest hsrc hg _
    have hk : consumeCount h.undoStream 0 = g.length := by
      rw [hsrc, consumeCount_whole g rest hg]
    refine ⟨?_, ?_⟩
    · rw [(doUndo_fields invert h w).1, hk, hsrc, List.drop_left]
    · rw [doUndo_redo_len invert hinv h w, hk]
  · intro c rest hsrc h1 h2
    have hk : consumeCount h.redoStream 0 = 1 := by
      rw [hsrc, consumeCount_cons, typeDelta_other c.type h1 h2]
      simp
    refine ⟨?_, ?_⟩
    · rw [(doRedo_fields invert h w).1, hk, hsrc, List.drop_succ_cons, List.drop_zero]
    · rw [doRedo_undo_len invert hinv h w, hk]
  · intro g rest hsrc hg _
    have hk : consumeCount h.redoStream 0 = g.length := by
      rw [hsrc, consumeCount_whole g rest hg]
    refine ⟨?_, ?_⟩
    · rw [(doRedo_fields invert h w).1, hk, hsrc, List.drop_left]
    · rw [doRedo_undo_len invert hinv h w, hk]

/-- Witness for C1: undoing from a stream holding one whole group of three
chunks consumes the group entirely and pushes three inverses. -/
theorem claim_C1_witness :
    (doUndo invConst
        { undoStream := [⟨UNDO_TYPE_OPEN, 16, "open"⟩, ⟨UNDO_TYPE_DATA, 30, "data"⟩,
            ⟨UNDO_TYPE_CLOSE, 16, "close"⟩],
          redoStream := [], diffCount := 3, diffSaved := 0, enabled := true,
          label := none } ()).1.undoStream = [] ∧
    (doUndo invConst
        { undoStream := [⟨UNDO_TYPE_OPEN, 16, "open"⟩, ⟨UNDO_TYPE_DATA, 30, "data"⟩,
            ⟨UNDO_TYPE_CLOSE, 16, "close"⟩],
          redoStream := [], diffCount := 3, diffSaved := 0, enabled := true,
          label := none } ()).1.redoStream.length =
      ([] : List UndoChunk).length +
        ([⟨UNDO_TYPE_OPEN, 16, "open"⟩, ⟨UNDO_TYPE_DATA, 30, "data"⟩,
          ⟨UNDO_TYPE_CLOSE, 16, "close"⟩] : List UndoChunk).length := by
  refine (claim_C1 invConst (fun c d w => by simp [invConst]) _ ()).2.1
    [⟨UNDO_TYPE_OPEN, 16, "open"⟩, ⟨UNDO_TYPE_DATA, 30, "data"⟩,
      ⟨UNDO_TYPE_CLOSE, 16, "close"⟩] [] rfl ⟨by decide, by decide, ?_⟩ ?_
  · intro j h1 h2
    norm_num at h2
    interval_cases j <;> decide
  · intro c hc
    injection hc with hc
    subst hc
    rfl

/-- Claim C10: calling `doUndo` when the undo stream is empty (or `doRedo`
when the redo stream is empty) is a complete no-op: the popChunk at the top
of the loop returns nil and the loop breaks before running any inverter, so
`diffCount`, both streams, the label and the live state are unchanged. -/
theorem claim_C10 {W : Type}
    (invert : UndoChunk → List UndoChunk → W → List UndoChunk × W)
    (h : UndoHistory) (w : W) :
    (h.undoStream = [] → doUndo invert h w = (h, w)) ∧
    (h.redoStream = [] → doRedo invert h w = (h, w)) := by
  obtain ⟨us, rs, dc, ds, en, lb⟩ := h
  constructor
  · intro hu
    simp only at hu
    subst hu
    simp [doUndo, runUndo, runUndoLoop, DO_UNDO]
  · intro hr
    simp only at hr
    subst hr
    simp [doRedo, runUndo, runUndoLoop, DO_UNDO, DO_REDO]

/-- Witness for C10 at the freshly constructed history. -/
theorem claim_C10_witness :
    doUndo invConst initialHistory () = (initialHistory, ()) ∧
    doRedo invConst initialHistory () = (initialHistory, ()) :=
  ⟨(claim_C10 invConst initialHistory ()).1 rfl,
    (claim_C10 invConst initialHistory ()).2 rfl⟩

/-! Recording (`undo_<action>` → `updateUndo`) and the saved-state law. -/

theorem memSize_cons (c : UndoChunk) (l : List UndoChunk) :
    memSize (c :: l) = c.size + memSize l := by
  simp [memSize]

theorem budgetLoop_noop (limit : Nat) : ∀ (g : Nat) (l : List UndoChunk),
    memSize l ≤ limit → budgetLoop limit g l = l := by
  intro g l hmem
  match g with
  | 0 => rfl
  | 1 => rfl
  | g + 2 =>
    show (if memSize l > limit then budgetLoop limit (g + 1) (discardTail l) else l) = l
    rw [if_neg (by omega)]

theorem updateUndo_diffCount (limit : Nat) (h : UndoHistory) :
    (updateUndo limit h).diffCount = h.diffCount + 1 := by
  simp only [updateUndo, clearRedo]
  split <;> rfl

theorem updateUndo_diffSaved (limit : Nat) (h : UndoHistory) :
    (updateUndo limit h).diffSaved = h.diffSaved := by
  simp only [updateUndo, clearRedo]
  split <;> rfl

theorem updateUndo_redoStream (limit : Nat) (h : UndoHistory) :
    (updateUndo limit h).redoStream = [] := by
  simp only [updateUndo, clearRedo]
  split <;> rfl

theorem updateUndo_label (limit : Nat) (h : UndoHistory) :
    (updateUndo limit h).label = h.label := by
  simp only [updateUndo, clearRedo]
  split <;> rfl

theorem updateUndo_undoStream_le (limit : Nat) (h : UndoHistory)
    (hmem : memSize h.undoStream ≤ limit) :
    (updateUndo limit h).undoStream = h.undoStream := by
  simp only [updateUndo, clearRedo]
  split
  · exact budgetLoop_noop limit _ _ hmem
  · rfl

theorem undo_record_diffCount (limit ty sz : Nat) (h : UndoHistory) :
    (undo_record limit ty sz h).diffCount = h.diffCount + 1 := by
  unfold undo_record
  rw [updateUndo_diffCount]

theorem undo_record_diffSaved (limit ty sz : Nat) (h : UndoHistory) :
    (undo_record limit ty sz h).diffSaved = h.diffSaved := by
  unfold undo_record
  rw [updateUndo_diffSaved]

theorem undo_record_label (limit ty sz : Nat) (h : UndoHistory) :
    (undo_record limit ty sz h).label = h.label := by
  unfold undo_record
  rw [updateUndo_label]

theorem undo_record_undoStream (limit ty sz : Nat) (h : UndoHistory)
    (hmem : sz + memSize h.undoStream ≤ limit) :
    (undo_record limit ty sz h).undoStream =
      { type := ty, size := sz, label := h.label.getD (undoActionName ty) } :: h.undoStream := by
  unfold undo_record
  rw [updateUndo_undoStream_le _ _ (by simpa [pushChunk, memSize_cons] using hmem)]
  rfl

theorem recordAll_cons (limit : Nat) (p : Nat × Nat) (cs : List (Nat × Nat))
    (h : UndoHistory) :
    recordAll limit (p :: cs) h = recordAll limit cs (undo_record limit p.1 p.2 h) := rfl

theorem recordAll_fields (limit : Nat) : ∀ (cs : List (Nat × Nat)) (h : UndoHistory),
    memSize h.undoStream + sizesTotal cs ≤ limit →
    (recordAll limit cs h).diffCount = h.diffCount + cs.length ∧
    (recordAll limit cs h).diffSaved = h.diffSaved ∧
    (recordAll limit cs h).undoStream.length = h.undoStream.length + cs.length := by
  intro cs
  induction cs with
  | nil =>
    intro h _
    simp [recordAll]
  | cons p cs' ih =>
    intro h hmem
    rw [recordAll_cons]
    have hsz : p.2 + memSize h.undoStream ≤ limit := by
      simp only [sizesTotal, List.map_cons, List.sum_cons] at hmem
      omega
    have hstream := undo_record_undoStream limit p.1 p.2 h hsz
    have hm2 : memSize (undo_record limit p.1 p.2 h).undoStream + sizesTotal cs' ≤ limit := by
      rw [hstream, memSize_cons]
      simp only [sizesTotal, List.map_cons, List.sum_cons] at hmem ⊢
      omega
    obtain ⟨i1, i2, i3⟩ := ih (undo_record limit p.1 p.2 h) hm2
    refine ⟨?_, ?_, ?_⟩
    · rw [i1, undo_record_diffCount]
      simp only [List.length_cons]
      push_cast
      ring
    · rw [i2, undo_record_diffSaved]
    · rw [i3, hstream]
      simp only [List.length_cons]
      omega

theorem doUndoN_succ {W : Type}
    (invert : UndoChunk → List UndoChunk → W → List UndoChunk × W)
    (n : Nat) (h : UndoHistory) (w : W) :
    doUndoN invert (n + 1) h w =
      doUndoN invert n (doUndo invert h w).1 (doUndo invert h w).2 := rfl

theorem doUndoN_drain {W : Type}
    (invert : UndoChunk → List UndoChunk → W → List UndoChunk × W) :
    ∀ (n : Nat) (h : UndoHistory) (w : W), h.undoStream.length ≤ n →
    (doUndoN invert n h w).1.diffCount = h.diffCount - h.undoStream.length ∧
    (doUndoN invert n h w).1.diffSaved = h.diffSaved := by
  intro n
  induction n with
  | zero =>
    intro h w hlen
    have h0 : h.undoStream.length = 0 := by omega
    simp [doUndoN, h0]
  | succ n ih =>
    intro h w hlen
    rw [doUndoN_succ]
    obtain ⟨hs, hd, hsv⟩ := doUndo_fields invert h w
    have hk1 : consumeCount h.undoStream 0 ≤ h.undoStream.length := consumeCount_le _ _
    have hlen' : (doUndo invert h w).1.undoStream.length =
        h.undoStream.length - consumeCount h.undoStream 0 := by
      rw [hs, List.length_drop]
    have hcase : h.undoStream.length = 0 ∨ 1 ≤ consumeCount h.undoStream 0 := by
      cases hlist : h.undoStream with
      | nil => left; rfl
      | cons c r => right; exact consumeCount_pos c r 0
    obtain ⟨d1, d2⟩ := ih (doUndo invert h w).1 (doUndo invert h w).2 (by omega)
    refine ⟨?_, ?_⟩
    · rw [d1, hlen', hd]
      omega
    · rw [d2, hsv]

/-- Claim C2 (amended): immediately after `markSavedState`, `isSavedState`
returns `true`; after any number of recordings followed by the same count
of `doUndo` calls (with no recordings in between), `isSavedState` is true
again — provided the undo stream was empty when the recordings began and
the total recorded size stays within the configured limit, so that no
budget eviction discards recorded chunks; and any single recording
performed while `isSavedState` is true makes `isSavedState` false (even if
the recorded action is semantically a no-op). -/
theorem claim_C2 {W : Type}
    (invert : UndoChunk → List UndoChunk → W → List UndoChunk × W)
    (limit : Nat) (h0 : UndoHistory) (cs : List (Nat × Nat)) (w : W)
    (hempty : h0.undoStream = [])
    (hbudget : sizesTotal cs ≤ limit) :
    isSavedState (markSavedState h0) = true ∧
    isSavedState
      ((doUndoN invert cs.length (recordAll limit cs (markSavedState h0)) w).1) = true ∧
    (∀ ty sz (h : UndoHistory), isSavedState h = true →
      isSavedState (undo_record limit ty sz h) = false) := by
  refine ⟨?_, ?_, ?_⟩
  · simp [isSavedState, markSavedState]
  · have hm : memSize (markSavedState h0).undoStream + sizesTotal cs ≤ limit := by
      simp only [markSavedState]
      rw [hempty]
      simpa [memSize] using hbudget
    obtain ⟨r1, r2, r3⟩ := recordAll_fields limit cs (markSavedState h0) hm
    have hlen : (recordAll limit cs (markSavedState h0)).undoStream.length ≤ cs.length := by
      rw [r3]
      simp only [markSavedState]
      rw [hempty]
      simp
    obtain ⟨d1, d2⟩ := doUndoN_drain invert cs.length (recordAll limit cs (markSavedState h0)) w hlen
    rw [isSavedState, beq_iff_eq, d1, d2, r1, r2, r3]
    simp only [markSavedState]
    rw [hempty]
    simp

  · intro ty sz h hsaved
    rw [isSavedState, beq_iff_eq] at hsaved
    rw [isSavedState, beq_eq_false_iff_ne, undo_record_diffCount, undo_record_diffSaved]
    omega

/-- Counterexample for C2 as stated: with a 0-byte limit, the second
top-level recording triggers eviction of the first (the tail group), so
two recordings followed by two `doUndo` calls leave `diffCount` one above
the saved mark — `isSavedState` stays false. -/
theorem claim_C2_counterexample :
    isSavedState
      ((doUndoN invConst 2
        (recordAll 0 [(UNDO_TYPE_DATA, 10), (UNDO_TYPE_DATA, 10)]
          (markSavedState initialHistory)) ()).1) = false := by
  simp only [recordAll_cons, recordAll]
  norm_num [undo_record, updateUndo, clearRedo, out_of_group, oogLoop, cugLoop,
    count_undo_groups, consumeCount, depthSum, typeDelta, budgetLoop, discardTail,
    discardTailLoop, memSize, pushChunk, doUndoN, doUndo, runUndo, runUndoLoop,
    DO_UNDO, DO_REDO, isSavedState, markSavedState, initialHistory, undoActionName,
    invConst, UNDO_TYPE_DATA, UNDO_TYPE_OPEN, UNDO_TYPE_CLOSE]

/-- Witness for the amended C2 at one recording within an 8 MiB limit. -/
theorem claim_C2_witness :
    isSavedState (markSavedState initialHistory) = true ∧
    isSavedState
      ((doUndoN invConst ([(UNDO_TYPE_DATA, 30)] : List (Nat × Nat)).length
        (recordAll 8388608 [(UNDO_TYPE_DATA, 30)] (markSavedState initialHistory)) ()).1) = true ∧
    (∀ ty sz (h : UndoHistory), isSavedState h = true →
      isSavedState (undo_record 8388608 ty sz h) = false) :=
  claim_C2 invConst 8388608 initialHistory [(UNDO_TYPE_DATA, 30)] () rfl (by decide)

/-- Claim C4: after any `undo_<action>` recording entry point completes
(`undo_open`, `undo_close`, `undo_data`, ..., `undo_set_frlen`, all of
which push one chunk and then call `updateUndo`), the redo stream is
empty, i.e. `canRedo` returns `false`. -/
theorem claim_C4 (limit ty sz : Nat) (h : UndoHistory) :
    canRedo (undo_record limit ty sz h) = false := by
  unfold undo_record
  rw [canRedo, updateUndo_redoStream]
  rfl

/-! `discardTail` and the budget loop of `updateUndo`. -/

theorem discardTailLoop_eq : ∀ (l : List UndoChunk) (lv : Int),
    discardTailLoop l lv = l.drop (consumeCount l lv) := by
  intro l
  induction l with
  | nil => intro lv; rfl
  | cons c rest ih =>
    intro lv
    show (if lv + typeDelta c.type = 0 then rest
      else discardTailLoop rest (lv + typeDelta c.type)) = _
    rw [consumeCount_cons]
    by_cases h0 : lv + typeDelta c.type = 0
    · rw [if_pos h0, if_pos h0, List.drop_succ_cons, List.drop_zero]
    · rw [if_neg h0, if_neg h0, ih, Nat.add_comm 1 _, List.drop_succ_cons]

theorem discardTail_eq (l : List UndoChunk) :
    discardTail l = (l.reverse.drop (consumeCount l.reverse 0)).reverse := by
  unfold discardTail
  rw [discardTailLoop_eq]

theorem discardTail_take (l : List UndoChunk) :
    discardTail l = l.take (l.length - consumeCount l.reverse 0) := by
  rw [discardTail_eq, List.drop_reverse, List.reverse_reverse]

theorem discardTail_split (l : List UndoChunk) :
    discardTail l ++ (l.reverse.take (consumeCount l.reverse 0)).reverse = l := by
  rw [discardTail_eq, ← List.reverse_append, List.take_append_drop, List.reverse_reverse]

theorem discardTail_depthSum (l : List UndoChunk) (hsum : depthSum l = 0) :
    depthSum (discardTail l) = 0 := by
  rcases consumeCount_last l.reverse 0 with h | h
  · rw [discardTail_eq, h, List.drop_length]
    rfl
  · have hsplit := discardTail_split l
    have hadd : depthSum (discardTail l) +
        depthSum ((l.reverse.take (consumeCount l.reverse 0)).reverse) = depthSum l := by
      rw [← depthSum_append, hsplit]
    rw [depthSum_reverse] at hadd
    omega

theorem discardTail_count (l : List UndoChunk) (hne : l ≠ []) (hsum : depthSum l = 0) :
    count_undo_groups (discardTail l) + 1 = count_undo_groups l := by
  have hAne : l.reverse ≠ [] := by simpa using hne
  obtain ⟨c, A', hA⟩ : ∃ c A', l.reverse = c :: A' := by
    cases hl : l.reverse with
    | nil => exact absurd hl hAne
    | cons c A' => exact ⟨c, A', rfl⟩
  have hk1 : 1 ≤ consumeCount l.reverse 0 := by
    rw [hA]; exact consumeCount_pos c A' 0
  have hk2 : consumeCount l.reverse 0 ≤ l.reverse.length := consumeCount_le _ _
  have hsum_take : depthSum (l.reverse.take (consumeCount l.reverse 0)) = 0 := by
    rcases consumeCount_last l.reverse 0 with h | h
    · rw [h, List.take_length, depthSum_reverse]
      exact hsum
    · simpa using h
  have hslen : ((l.reverse.take (consumeCount l.reverse 0)).reverse).length =
      consumeCount l.reverse 0 := by
    rw [List.length_reverse, List.length_take]
    omega
  have hsne : (l.reverse.take (consumeCount l.reverse 0)).reverse ≠ [] := by
    intro hcon
    rw [hcon] at hslen
    simp at hslen
    omega
  have hd0 : depthSum (discardTail l) = 0 := discardTail_depthSum l hsum
  have hminS : ∀ j, 1 ≤ j →
      j < ((l.reverse.take (consumeCount l.reverse 0)).reverse).length →
      (0 : Int) + depthSum (((l.reverse.take (consumeCount l.reverse 0)).reverse).take j) ≠ 0 := by
    intro j hj1 hj2
    rw [hslen] at hj2
    rw [List.take_reverse, depthSum_reverse, List.length_take,
      min_eq_left hk2]
    have htt : (l.reverse.take (consumeCount l.reverse 0)).take (consumeCount l.reverse 0 - j) =
        l.reverse.take (consumeCount l.reverse 0 - j) := by
      rw [List.take_take, min_eq_left (by omega)]
    have hsplit2 : depthSum (l.reverse.take (consumeCount l.reverse 0)) =
        depthSum ((l.reverse.take (consumeCount l.reverse 0)).take (consumeCount l.reverse 0 - j)) +
          depthSum ((l.reverse.take (consumeCount l.reverse 0)).drop (consumeCount l.reverse 0 - j)) := by
      conv_lhs => rw [← List.take_append_drop (consumeCount l.reverse 0 - j)
        (l.reverse.take (consumeCount l.reverse 0))]
      rw [depthSum_append]
    have hmin2 := consumeCount_min l.reverse 0 (consumeCount l.reverse 0 - j)
      (by omega) (by omega)
    rw [zero_add] at hmin2
    rw [htt] at hsplit2
    intro hcon
    rw [zero_add] at hcon
    rw [hsum_take, hcon] at hsplit2
    exact hmin2 (by omega)
  have hzs : zerosFrom ((l.reverse.take (consumeCount l.reverse 0)).reverse) 0 = 1 := by
    rw [zerosFrom_minimal _ _ hsne hminS, if_pos]
    rw [depthSum_reverse, hsum_take]
    omega
  rw [count_eq_zeros, count_eq_zeros]
  conv_rhs => rw [← discardTail_split l]
  rw [zerosFrom_append, hd0, zero_add, hzs]

theorem budgetLoop_two (limit g : Nat) (l : List UndoChunk) :
    budgetLoop limit (g + 2) l =
      if memSize l > limit then budgetLoop limit (g + 1) (discardTail l) else l := rfl

theorem budgetLoop_spec (limit : Nat) : ∀ (g : Nat) (l : List UndoChunk),
    depthSum l = 0 → count_undo_groups l ≤ g →
    depthSum (budgetLoop limit g l) = 0 ∧
    (∃ n, budgetLoop limit g l = l.take n) ∧
    (count_undo_groups (budgetLoop limit g l) ≤ 1 ∨
      memSize (budgetLoop limit g l) ≤ limit) := by
  intro g
  induction g with
  | zero =>
    intro l hsum hcnt
    refine ⟨hsum, ⟨l.length, (List.take_length l).symm⟩, Or.inl ?_⟩
    show count_undo_groups l ≤ 1
    omega
  | succ g' ih =>
    intro l hsum hcnt
    match g', ih with
    | 0, _ =>
      exact ⟨hsum, ⟨l.length, (List.take_length l).symm⟩, Or.inl hcnt⟩
    | g'' + 1, ih =>
      rw [budgetLoop_two]
      by_cases hmem : memSize l > limit
      · rw [if_pos hmem]
        have hne : l ≠ [] := by
          intro hcon
          rw [hcon] at hmem
          simp [memSize] at hmem
        have hc := discardTail_count l hne hsum
        obtain ⟨b1, b2, b3⟩ := ih (discardTail l) (discardTail_depthSum l hsum) (by omega)
        refine ⟨b1, ?_, b3⟩
        obtain ⟨n, hn⟩ := b2
        refine ⟨min n (l.length - consumeCount l.reverse 0), ?_⟩
        rw [hn, discardTail_take, List.take_take]
      · rw [if_neg hmem]
        exact ⟨hsum, ⟨l.length, (List.take_length l).symm⟩, Or.inr (by omega)⟩

/-- Claim C3: after every `updateUndo` call, if the undo stream is
out-of-group (its running OPEN/CLOSE depth over the entire contents is
zero), then either the number of top-level groups in the undo stream is at
most 1, or the stream's total memory size is at most the configured limit;
and eviction removes whole groups from the tail only — the resulting
stream is a head-prefix of the previous one and is still balanced. -/
theorem claim_C3 (limit : Nat) (h : UndoHistory)
    (hoog : out_of_group ((updateUndo limit h).undoStream) = true) :
    (count_undo_groups ((updateUndo limit h).undoStream) ≤ 1 ∨
      memSize ((updateUndo limit h).undoStream) ≤ limit) ∧
    (∃ n, (updateUndo limit h).undoStream = h.undoStream.take n) ∧
    depthSum ((updateUndo limit h).undoStream) = 0 := by
  by_cases hpre : out_of_group h.undoStream = true
  · have hsum : depthSum h.undoStream = 0 := (out_of_group_iff _).mp hpre
    have hstream : (updateUndo limit h).undoStream =
        budgetLoop limit (count_undo_groups h.undoStream) h.undoStream := by
      simp only [updateUndo, clearRedo]
      rw [if_pos hpre]
    obtain ⟨b1, b2, b3⟩ :=
      budgetLoop_spec limit (count_undo_groups h.undoStream) h.undoStream hsum le_rfl
    rw [hstream]
    exact ⟨b3, b2, b1⟩
  · have hstream : (updateUndo limit h).undoStream = h.undoStream := by
      simp only [updateUndo, clearRedo]
      rw [if_neg hpre]
    rw [hstream] at hoog
    exact absurd hoog hpre

/-- Witness for C3 at a one-chunk undo stream under an 8-byte limit. -/
theorem claim_C3_witness :
    (count_undo_groups ((updateUndo 8 exHistory3).undoStream) ≤ 1 ∨
      memSize ((updateUndo 8 exHistory3).undoStream) ≤ 8) ∧
    (∃ n, (updateUndo 8 exHistory3).undoStream = exHistory3.undoStream.take n) ∧
    depthSum ((updateUndo 8 exHistory3).undoStream) = 0 :=
  claim_C3 8 exHistory3 (by
    norm_num [updateUndo, clearRedo, out_of_group, oogLoop, cugLoop, count_undo_groups,
      consumeCount, depthSum, typeDelta, budgetLoop, discardTail, discardTailLoop,
      memSize, UNDO_TYPE_DATA, UNDO_TYPE_OPEN, UNDO_TYPE_CLOSE, exHistory3])

/-! The REMAP_PALETTE inverse-mapping construction. -/

theorem remapFold_skip (m : Fin 256 → Fin 256) :
    ∀ (l : List (Fin 256)) (init : Fin 256 → Fin 256) (p : Fin 256),
    (∀ c ∈ l, m c ≠ p) →
    (l.foldl (fun inverse c => Function.update inverse (m c) c) init) p = init p := by
  intro l
  induction l with
  | nil => intro init p _; rfl
  | cons c l' ih =>
    intro init p hno
    rw [List.foldl_cons, ih _ p (fun d hd => hno d (List.mem_cons_of_mem c hd)),
      Function.update_noteq (fun hx => hno c (List.mem_cons_self c l') hx.symm) c init]

theorem remapFold_hit (m : Fin 256 → Fin 256) (hm : Function.Injective m) :
    ∀ (l : List (Fin 256)), l.Nodup → ∀ (init : Fin 256 → Fin 256) (i : Fin 256), i ∈ l →
    (l.foldl (fun inverse c => Function.update inverse (m c) c) init) (m i) = i := by
  intro l
  induction l with
  | nil => intro _ init i h; cases h
  | cons c l' ih =>
    intro hnd init i hi
    rw [List.foldl_cons]
    rcases List.mem_cons.mp hi with rfl | hi'
    · have hno : ∀ d ∈ l', m d ≠ m i := by
        intro d hd heq
        exact (List.nodup_cons.mp hnd).1 (hm heq ▸ hd)
      rw [remapFold_skip m l' _ (m i) hno, Function.update_same]
    · exact ih (List.nodup_cons.mp hnd).2 _ i hi'

theorem remapInverse_left (m : Fin 256 → Fin 256) (hm : Function.Injective m)
    (i : Fin 256) : chunk_remap_palette_inverse m (m i) = i :=
  remapFold_hit m hm (List.finRange 256) (List.nodup_finRange 256) _ i (List.mem_finRange i)

/-- Claim C7: the inverter of a REMAP_PALETTE chunk builds
`inverse[mapping[i]] = i` for every `i ∈ [0,256)`; for every mapping that
is a permutation of `[0,256)`, this inverse composed with the original
mapping is the identity on `[0,256)` (in both orders), so the chunk
emitted by inverting the inverse chunk carries the original mapping
again. -/
theorem claim_C7 (m : Fin 256 → Fin 256) (hm : Function.Bijective m) :
    (∀ i, chunk_remap_palette_inverse m (m i) = i) ∧
    (∀ j, m (chunk_remap_palette_inverse m j) = j) ∧
    (∀ chunk : UndoChunkRemapPalette, chunk.mapping = m →
      chunk_remap_palette_invert_chunk (chunk_remap_palette_invert_chunk chunk) = chunk) := by
  have h1 : ∀ i, chunk_remap_palette_inverse m (m i) = i := remapInverse_left m hm.1
  have h2 : ∀ j, m (chunk_remap_palette_inverse m j) = j := by
    intro j
    obtain ⟨i, rfl⟩ := hm.2 j
    rw [h1 i]
  have hginj : Function.Injective (chunk_remap_palette_inverse m) := by
    intro a b hab
    have := congrArg m hab
    rwa [h2, h2] at this
  have h3 : chunk_remap_palette_inverse (chunk_remap_palette_inverse m) = m := by
    funext j
    have := remapInverse_left (chunk_remap_palette_inverse m) hginj (m j)
    rwa [h1 j] at this
  refine ⟨h1, h2, ?_⟩
  intro chunk hmap
  obtain ⟨sid, ff, ft, mp⟩ := chunk
  simp only at hmap
  subst hmap
  simp [chunk_remap_palette_invert_chunk, h3]

/-- Witness for C7 at the identity permutation. -/
theorem claim_C7_witness :
    (∀ i, chunk_remap_palette_inverse id (id i) = i) ∧
    (∀ j, id (chunk_remap_palette_inverse id j) = j) ∧
    (∀ chunk : UndoChunkRemapPalette, chunk.mapping = id →
      chunk_remap_palette_invert_chunk (chunk_remap_palette_invert_chunk chunk) = chunk) :=
  claim_C7 id Function.bijective_id

/-! The IMAGE chunk inverter. -/

/-- Claim C9: given that the chunk's image id resolves to a live image,
inverting an IMAGE chunk raises `UndoFailure` if and only if the live
image's `imgtype` differs from the `imgtype` stored in the chunk; when the
types match, it first encodes the current live pixel rectangle onto the
destination stream (the pushed chunk's rows are read from the incoming
image) and only then overwrites the live rectangle with the chunk's stored
pixels. -/
theorem claim_C9 (objects : Nat → Option ImageObj) (stream : List UndoChunkImage)
    (chunk : UndoChunkImage) (image : ImageObj)
    (halive : objects chunk.image_id = some image) :
    ((∃ e, chunk_image_invert objects stream chunk = Except.error e) ↔
      image.imgtype ≠ chunk.imgtype) ∧
    (image.imgtype = chunk.imgtype →
      chunk_image_invert objects stream chunk =
        Except.ok (chunk_image_new stream image chunk.x chunk.y chunk.w chunk.h,
          image_write_rect image chunk)) := by
  unfold chunk_image_invert
  simp only [halive]
  constructor
  · constructor
    · rintro ⟨e, he⟩
      by_cases ht : image.imgtype ≠ chunk.imgtype
      · exact ht
      · rw [if_neg ht] at he
        cases he
    · intro ht
      rw [if_pos ht]
      exact ⟨_, rfl⟩
  · intro ht
    rw [if_neg (show ¬image.imgtype ≠ chunk.imgtype from fun hne => hne ht)]

/-- Witness for C9 at a concrete matching image and chunk. -/
theorem claim_C9_witness :
    ((∃ e, chunk_image_invert exObjects [] exChunkImage = Except.error e) ↔
      exImage.imgtype ≠ exChunkImage.imgtype) ∧
    (exImage.imgtype = exChunkImage.imgtype →
      chunk_image_invert exObjects [] exChunkImage =
        Except.ok (chunk_image_new [] exImage exChunkImage.x exChunkImage.y
            exChunkImage.w exChunkImage.h,
          image_write_rect exImage exChunkImage)) :=
  claim_C9 exObjects [] exChunkImage exImage rfl

/-! The raw-layer codec size bug. -/

/-- Claim C8, evaluated at the failing input: for an image layer with an
empty name and no cels, `get_raw_layer_size` answers 16 bytes (it counts a
"blend mode" byte), while `write_raw_layer` actually emits 15 bytes —
`4 + 2 + 0 + 1 + 2 + 4` header bytes plus the 2-byte cel count.  The size
computation and the serialized form disagree by one byte per image layer,
so the claimed equality fails (and `read_raw_layer`, which skips children
by `get_raw_layer_size`, desynchronises on nested image layers). -/
theorem claim_C8_bug :
    get_raw_layer_size exRemovedLayer = 16 ∧
    (write_raw_layer exRemovedLayer).length = 15 := by
  constructor
  · simp [get_raw_layer_size, exRemovedLayer]
  · simp [write_raw_layer, exRemovedLayer, w32, w16, w8]

end Undo
